import Mathlib

/-!
Verification of the Sideby Pass extension core: URL normalization
(cleanByteRangeUrl), the candidate classifier (isPlayableVideo), the scorer
(scoreVideo), the per-tab registry (addVideoToTab / getVideosForTab), the two
M3U8 master-playlist parsers (background fetchAndParseM3U8 and the page-context
HLS watcher), and the page-context dispatch pipeline (dispatchVideo /
embedHeaders / isAlreadyProxied).

JavaScript strings are modelled as Lean String / List Char; the regular
expressions of the source are translated into explicit executable scanners
that are faithful on the relevant pattern shapes; JS Map is modelled as an
insertion-ordered association list (matching JS Map iteration order); JS
falsy-value checks on optional strings/numbers are modelled explicitly
(null = none, and the empty string / zero are falsy).
-/

set_option maxRecDepth 8000

namespace SidebyPass

/-! ### Character and string utilities -/

/-- Characters of a string literal. -/
def lc (s : String) : List Char := s.data

/-- Lower-cased characters of a string (models JS toLowerCase on ASCII). -/
def lowerData (s : String) : List Char := s.data.map Char.toLower

/-- Case-insensitive character equality (ASCII). -/
def ciEq (a b : Char) : Bool := a.toLower = b.toLower

/-- Case-sensitive literal test at the head of a character list. -/
def startsWithL : List Char → List Char → Bool
  | [], _ => true
  | _ :: _, [] => false
  | p :: ps, c :: cs => p = c && startsWithL ps cs

/-- Case-insensitive literal test at the head of a character list. -/
def startsWithCI : List Char → List Char → Bool
  | [], _ => true
  | _ :: _, [] => false
  | p :: ps, c :: cs => ciEq p c && startsWithCI ps cs

/-- Consume a case-sensitive literal, returning the remaining characters. -/
def stripL : List Char → List Char → Option (List Char)
  | [], s => some s
  | _ :: _, [] => none
  | p :: ps, c :: cs => if p = c then stripL ps cs else none

/-- Consume a case-insensitive literal, returning the remaining characters. -/
def stripCI : List Char → List Char → Option (List Char)
  | [], s => some s
  | _ :: _, [] => none
  | p :: ps, c :: cs => if ciEq p c then stripCI ps cs else none

/-- Does the predicate hold at some suffix of the list?  This is the engine
behind all regex `.test` translations. -/
def scanAny (p : List Char → Bool) : List Char → Bool
  | [] => p []
  | c :: rest => p (c :: rest) || scanAny p rest

/-- First suffix where the partial matcher succeeds (models an unanchored
regex `.match` picking the leftmost occurrence). -/
def scanFirst {α : Type} (p : List Char → Option α) : List Char → Option α
  | [] => p []
  | c :: rest =>
    match p (c :: rest) with
    | some v => some v
    | none => scanFirst p rest

/-- Case-sensitive substring test (models JS `String.prototype.includes`). -/
def containsL (pat s : List Char) : Bool := scanAny (fun t => startsWithL pat t) s

/-- Case-insensitive substring test (models a `/literal/i` regex test). -/
def containsCIL (pat s : List Char) : Bool := scanAny (fun t => startsWithCI pat t) s

/-- Case-insensitive substring test on strings. -/
def containsTokenCI (pat s : String) : Bool := containsCIL pat.data s.data

/-- JS whitespace (ASCII part) for `trim` and `\s`. -/
def isWS (c : Char) : Bool :=
  c = ' ' || c = '\t' || c = '\n' || c = '\x0d' || c = '\x0c' || c = '\x0b'

/-- Models JS `String.prototype.trim` on the ASCII whitespace subset. -/
def trimL (s : List Char) : List Char :=
  ((s.dropWhile isWS).reverse.dropWhile isWS).reverse

/-- Numeric value of a digit run (models `parseInt` on an all-digit string). -/
def natOfDigits (ds : List Char) : Nat :=
  ds.foldl (fun a c => a * 10 + (c.toNat - 48)) 0

/-- Models `parseInt(s) || 0`: the leading digit run of `s`, and `0` when
there is none (`parseInt` yields `NaN`, which every comparison rejects and
`|| 0` maps to `0`). -/
def leadingNat (s : String) : Nat := natOfDigits (s.data.takeWhile Char.isDigit)

/-- Split at every occurrence of a (non-empty) literal separator, fuelled by
the input length; models JS `String.prototype.split(sep)`. -/
def splitOnAux (sep : List Char) : Nat → List Char → List Char → List (List Char)
  | 0, acc, s => [acc.reverse ++ s]
  | _ + 1, acc, [] => [acc.reverse]
  | fuel + 1, acc, c :: rest =>
    match stripL sep (c :: rest) with
    | some after => acc.reverse :: splitOnAux sep fuel [] after
    | none => splitOnAux sep fuel (c :: acc) rest

/-- JS `s.split(sep)` for a non-empty literal separator. -/
def splitOnL (sep s : List Char) : List (List Char) := splitOnAux sep s.length [] s

/-- Split on maximal runs of separator characters; models JS
`s.split(/[\s,\n]+/)` including the leading/trailing empty tokens JS
produces. -/
def splitRunsAux (p : Char → Bool) : Nat → List Char → List Char → List (List Char)
  | 0, acc, s => [acc.reverse ++ s]
  | _ + 1, acc, [] => [acc.reverse]
  | fuel + 1, acc, c :: rest =>
    if p c then acc.reverse :: splitRunsAux p fuel [] (rest.dropWhile p)
    else splitRunsAux p fuel (c :: acc) rest

/-- JS `s.split(/runs of p/)`. -/
def splitRuns (p : Char → Bool) (s : List Char) : List (List Char) :=
  splitRunsAux p s.length [] s

/-- Split at the first occurrence of a character: (before, rest-after) with
`none` when the character does not occur. -/
def splitFirst (ch : Char) : List Char → List Char × Option (List Char)
  | [] => ([], none)
  | c :: rest =>
    if c = ch then ([], some rest)
    else
      let r := splitFirst ch rest
      (c :: r.1, r.2)

/-! ### URL normalizer

Models `cleanByteRangeUrl` (background script; the identical copies in the
content script and the watcher are the same function):

    url.replace(/&bytestart=\d*/gi, "")
       .replace(/&byteend=\d*/gi, "")
       .replace(/\?bytestart=\d*&?/gi, "?")
       .replace(/\?$/g, "")

Each `.replace(re, r)` with a global regex is a single left-to-right pass
emitting `r` at every non-overlapping leftmost match; replaced text is not
rescanned within a pass. -/

/-- One global-replace pass: at every position try the matcher, which returns
(replacement, remaining input after the match). Fuelled by input length. -/
def replacePass (mr : List Char → Option (List Char × List Char)) :
    Nat → List Char → List Char
  | 0, s => s
  | _ + 1, [] => []
  | fuel + 1, c :: rest =>
    match mr (c :: rest) with
    | some ra => ra.1 ++ replacePass mr fuel ra.2
    | none => c :: replacePass mr fuel rest

/-- Run a replace pass with sufficient fuel. -/
def runPass (mr : List Char → Option (List Char × List Char)) (s : List Char) :
    List Char := replacePass mr s.length s

/-- Matcher for `/&bytestart=\d*/i`. -/
def mrAmpStart (s : List Char) : Option (List Char × List Char) :=
  match stripCI (lc "&bytestart=") s with
  | some r => some ([], r.dropWhile Char.isDigit)
  | none => none

/-- Matcher for `/&byteend=\d*/i`. -/
def mrAmpEnd (s : List Char) : Option (List Char × List Char) :=
  match stripCI (lc "&byteend=") s with
  | some r => some ([], r.dropWhile Char.isDigit)
  | none => none

/-- Matcher for `/\?bytestart=\d*&?/i`, replaced by `?`. -/
def mrQStart (s : List Char) : Option (List Char × List Char) :=
  match stripCI (lc "?bytestart=") s with
  | some r =>
    let r2 := r.dropWhile Char.isDigit
    some ([ '?' ], match r2 with | '&' :: r3 => r3 | _ => r2)
  | none => none

/-- Models `/\?$/g`: removes one trailing question mark. -/
def dropTrailingQ (s : List Char) : List Char :=
  if s.getLast? = some '?' then s.dropLast else s

/-- `cleanByteRangeUrl` of the source, all four replaces in order. -/
def cleanByteRangeUrl (s : String) : String :=
  String.mk (dropTrailingQ (runPass mrQStart (runPass mrAmpEnd (runPass mrAmpStart s.data))))

/-! ### Source priority table (background script `SOURCE_PRIORITY`) -/

def SOURCE_PRIORITY : List (String × Int) :=
  [("instagram", 100), ("twitter", 100), ("vimeo", 100), ("tiktok", 100),
   ("instagram-json", 95), ("api", 90), ("hls", 85), ("og:video", 80),
   ("dom-playing", 75), ("dom", 50), ("webRequest", 40)]

/-- `SOURCE_PRIORITY[s]` as a JS property lookup (undefined = none). -/
def lookupPriority : List (String × Int) → String → Option Int
  | [], _ => none
  | kv :: rest, s => if kv.1 = s then some kv.2 else lookupPriority rest s

/-- `SOURCE_PRIORITY[source] || 0`, over an optional source tag. -/
def prioOf (source : Option String) : Int :=
  match source with
  | some s => (lookupPriority SOURCE_PRIORITY s).getD 0
  | none => 0

/-- `source && SOURCE_PRIORITY[source] >= 75` (undefined >= 75 is false). -/
def sourceHighPriority (source : Option String) : Bool :=
  match source with
  | some s =>
    s ≠ "" &&
      (match lookupPriority SOURCE_PRIORITY s with
       | some p => decide (75 ≤ p)
       | none => false)
  | none => false

/-- Every source tag an adapter of this repository can emit
(content script: youtube, dom-playing, dom, og:video, instagram-json, tiktok;
watcher: instagram, twitter, vimeo, hls, api; background: hls, webRequest). -/
def emittableSourceTags : List String :=
  ["instagram", "twitter", "vimeo", "tiktok", "instagram-json", "api", "hls",
   "og:video", "dom-playing", "dom", "webRequest", "youtube"]

/-! ### Configuration constants -/

def MIN_VIDEO_SIZE_BYTES : Nat := 500000
def MAX_RESULTS : Nat := 5
def ENTRY_TTL_MS : Nat := 600000

/-! ### Classifier regex translations (all applied to the lower-cased URL) -/

/-- Terminator class `(\?|#|$)` after a file extension. -/
def extEnd : List Char → Bool
  | [] => true
  | '?' :: _ => true
  | '#' :: _ => true
  | _ :: _ => false

/-- Matches `\.(e1|e2|...)(\?|#|$)` at the current position. -/
def matchExtAt (exts : List (List Char)) : List Char → Bool
  | '.' :: rest =>
    exts.any (fun e =>
      match stripCI e rest with
      | some r => extEnd r
      | none => false)
  | _ => false

/-- `VIDEO_EXTENSIONS = /\.(mp4|m4v|mov|m3u8)(\?|#|$)/i`. -/
def videoExtTest (s : List Char) : Bool :=
  scanAny (matchExtAt [lc "mp4", lc "m4v", lc "mov", lc "m3u8"]) s

/-- `SEGMENT_EXTENSIONS = /\.(ts|m4s|m4a)(\?|#|$)/i`. -/
def segmentExtTest (s : List Char) : Bool :=
  scanAny (matchExtAt [lc "ts", lc "m4s", lc "m4a"]) s

/-- `/\.webm(\?|#|$)/i`. -/
def webmExtTest (s : List Char) : Bool := scanAny (matchExtAt [lc "webm"]) s

/-- `/\.m4s(\?|#|$)/i`. -/
def m4sExtTest (s : List Char) : Bool := scanAny (matchExtAt [lc "m4s"]) s

/-- `VIDEO_CONTENT_TYPES = /^(video\/|application\/(vnd\.apple\.mpegurl|x-mpegurl))/i`. -/
def videoContentTypeTest (ct : String) : Bool :=
  startsWithCI (lc "video/") ct.data ||
  startsWithCI (lc "application/vnd.apple.mpegurl") ct.data ||
  startsWithCI (lc "application/x-mpegurl") ct.data

/-- `contentType && VIDEO_CONTENT_TYPES.test(contentType)`. -/
def ctTruthyTest (ct : Option String) : Bool :=
  match ct with
  | some c => c ≠ "" && videoContentTypeTest c
  | none => false

/-- Separator character class: underscore, dash or slash. -/
def sepChar (c : Char) : Bool := c = '_' || c = '-' || c = '/'

/-- Optionally consume one `[_\-]`. -/
def optSep : List Char → List Char
  | c :: rest => if c = '_' || c = '-' then rest else c :: rest
  | [] => []

/-- One keyword alternative of segment pattern 1: keyword then `[_\-]?\d`. -/
def kwDigit (kw : String) (s : List Char) : Bool :=
  match stripCI (lc kw) s with
  | some r =>
    match optSep r with
    | d :: _ => d.isDigit
    | [] => false
  | none => false

/-- Segment pattern 1 at a position: a separator (underscore, dash, slash),
then one of seg, segment, frag, fragment, chunk, part, an optional underscore
or dash, then at least one digit. -/
def segKwAt : List Char → Bool
  | c :: rest =>
    sepChar c &&
      (kwDigit "seg" rest || kwDigit "segment" rest || kwDigit "frag" rest ||
       kwDigit "fragment" rest || kwDigit "chunk" rest || kwDigit "part" rest)
  | [] => false

/-- Segment pattern 2 at a position: a separator, the word init, an optional
underscore or dash, any digits, then a dot and mp4 or m4s. -/
def initAt : List Char → Bool
  | c :: rest =>
    sepChar c &&
      (match stripCI (lc "init") rest with
       | some r =>
         (match (optSep r).dropWhile Char.isDigit with
          | '.' :: r4 => startsWithCI (lc "mp4") r4 || startsWithCI (lc "m4s") r4
          | _ => false)
       | none => false)
  | [] => false

/-- `/[&?]range=\d+[_\-]\d+/i` at a position. -/
def rangeEqAt : List Char → Bool
  | c :: rest =>
    (c = '&' || c = '?') &&
      (match stripCI (lc "range=") rest with
       | some r =>
         !(r.takeWhile Char.isDigit).isEmpty &&
           (match r.dropWhile Char.isDigit with
            | d :: r3 =>
              (d = '_' || d = '-') &&
                (match r3 with
                 | e :: _ => e.isDigit
                 | [] => false)
            | [] => false)
       | none => false)
  | [] => false

/-- `/\/range\/\d+/i` at a position. -/
def rangeSlashAt (s : List Char) : Bool :=
  match stripCI (lc "/range/") s with
  | some (d :: _) => d.isDigit
  | _ => false

/-- The six `SEGMENT_PATTERNS` tests of the background script. -/
def segmentPatternsTest (s : List Char) : Bool :=
  scanAny segKwAt s || scanAny initAt s || scanAny rangeEqAt s ||
  scanAny rangeSlashAt s ||
  containsCIL (lc "&bytestart=") s || containsCIL (lc "?bytestart=") s ||
  containsCIL (lc "&byteend=") s || containsCIL (lc "?byteend=") s

/-- Audio pattern 1 at a position: a separator, the word audio, a separator. -/
def audioSepAt : List Char → Bool
  | c :: rest =>
    sepChar c &&
      (match stripCI (lc "audio") rest with
       | some (d :: _) => sepChar d
       | _ => false)
  | [] => false

/-- The four `AUDIO_ONLY_PATTERNS` tests of the background script. -/
def audioOnlyTest (s : List Char) : Bool :=
  scanAny audioSepAt s || containsCIL (lc "audio_only") s ||
  containsCIL (lc "audio-only") s ||
  scanAny (matchExtAt [lc "m4a"]) s || scanAny (matchExtAt [lc "aac"]) s

/-- The YouTube direct-play URL test of `isPlayableVideo`. -/
def youtubeUrlTest (url : String) : Bool :=
  containsL (lc "youtube.com/watch") (lowerData url) ||
  containsL (lc "youtube.com/shorts/") (lowerData url) ||
  containsL (lc "youtu.be/") (lowerData url)

/-- JS truthiness of an optional numeric size (null and 0 are falsy). -/
def sizeTruthy : Option Nat → Bool
  | none => false
  | some n => n ≠ 0

/-- Numeric value of an optional size. -/
def sizeVal : Option Nat → Nat
  | none => 0
  | some n => n

/-- JS truthiness of an optional string (null and "" are falsy). -/
def strTruthy : Option String → Bool
  | none => false
  | some s => s ≠ ""

/-! ### Candidate classifier (background script `isPlayableVideo`) -/

/-- Faithful translation of `isPlayableVideo(url, contentType, size, source)`. -/
def isPlayableVideo (url : String) (contentType : Option String)
    (size : Option Nat) (source : Option String) : Bool :=
  if sourceHighPriority source then true
  else if youtubeUrlTest url then true
  else if webmExtTest (lowerData url) then false
  else if m4sExtTest (lowerData url) then false
  else if !videoExtTest (lowerData url) && !ctTruthyTest contentType &&
          !(segmentExtTest (lowerData url) && sizeTruthy size &&
            decide (MIN_VIDEO_SIZE_BYTES * 2 < sizeVal size)) then false
  else if segmentPatternsTest (lowerData url) then false
  else if audioOnlyTest (lowerData url) then false
  else if sizeTruthy size && decide (sizeVal size < MIN_VIDEO_SIZE_BYTES) then false
  else true

/-! ### Scorer (background script `scoreVideo`) -/

/-- Faithful translation of `scoreVideo(url, size, source, quality)`. -/
def scoreVideo (url : String) (size : Option Nat) (source : Option String)
    (quality : Option String) : Int :=
  let lower := lowerData url
  let srcB : Int :=
    match source with
    | some s => if s = "" then 0 else (lookupPriority SOURCE_PRIORITY s).getD 0
    | none => 0
  let extB : Int :=
    if scanAny (matchExtAt [lc "mp4"]) lower then 20
    else if scanAny (matchExtAt [lc "m3u8"]) lower then 15
    else 0
  let sizeB : Int :=
    match size with
    | some n =>
      if n = 0 then 0
      else if 50000000 < n then 30
      else if 10000000 < n then 20
      else if 5000000 < n then 10
      else 0
    | none => 0
  let qB : Int :=
    match quality with
    | some q =>
      let n := leadingNat q
      if 1080 ≤ n then 15 else if 720 ≤ n then 10 else if 480 ≤ n then 5 else 0
    | none => 0
  let hdB : Int :=
    if containsL (lc "1080") lower || containsL (lc "1920") lower ||
       containsL (lc "hd") lower || containsL (lc "high") lower then 5 else 0
  let seven : Int := if containsL (lc "720") lower then 3 else 0
  10 + srcB + extB + sizeB + qB + hdB + seven

/-! ### Data model of the per-tab registry -/

/-- An incoming candidate message (the `video` argument of `addVideoToTab`). -/
structure VideoMsg where
  url : String
  size : Option Nat := none
  contentType : Option String := none
  source : Option String := none
  quality : Option String := none
  title : Option String := none
  playlist : Option Bool := none
deriving DecidableEq

/-- One stored registry entry (the per-URL record of `videosByTab`). -/
structure Info where
  size : Option Nat
  contentType : Option String
  timestamp : Nat
  source : Option String
  quality : Option String
  title : Option String
  playlist : Option Bool
deriving DecidableEq

/-- One ranked result of `getVideosForTab`. -/
structure RankedVideo where
  url : String
  size : Option Nat
  score : Int
  timestamp : Nat
  quality : Option String
  source : Option String
  title : Option String
  playlist : Option Bool
deriving DecidableEq

/-- One per-tab map: insertion-ordered association list, as a JS Map. -/
abbrev TabMap := List (String × Info)

/-- The whole `videosByTab` store. -/
abbrev Store := List (Nat × TabMap)

def mapGet : TabMap → String → Option Info
  | [], _ => none
  | kv :: rest, k => if kv.1 = k then some kv.2 else mapGet rest k

/-- JS `Map.set`: replace in place, or append a new key at the end. -/
def mapSet : TabMap → String → Info → TabMap
  | [], k, v => [(k, v)]
  | kv :: rest, k, v => if kv.1 = k then (k, v) :: rest else kv :: mapSet rest k v

def tabGet : Store → Nat → Option TabMap
  | [], _ => none
  | kv :: rest, t => if kv.1 = t then some kv.2 else tabGet rest t

def tabSet : Store → Nat → TabMap → Store
  | [], t, m => [(t, m)]
  | kv :: rest, t, m => if kv.1 = t then (t, m) :: rest else kv :: tabSet rest t m

/-- The entry created on first insertion (`video.size || null`,
`video.contentType || null`, `Date.now()`, raw source/quality/title/playlist). -/
def newInfo (v : VideoMsg) (now : Nat) : Info :=
  { size := match v.size with | some n => if n = 0 then none else some n | none => none
    contentType := match v.contentType with | some c => if c = "" then none else some c | none => none
    timestamp := now
    source := v.source
    quality := v.quality
    title := v.title
    playlist := v.playlist }

/-- The merge applied when the cleaned URL is already stored: source is
replaced only on strictly higher priority; quality and title are filled only
when the stored value is falsy and the incoming one truthy; every other field
is untouched. -/
def mergeEntry (e : Info) (v : VideoMsg) : Info :=
  { e with
    source := if prioOf v.source > prioOf e.source then v.source else e.source
    quality := if strTruthy v.quality && !strTruthy e.quality then v.quality else e.quality
    title := if strTruthy v.title && !strTruthy e.title then v.title else e.title }

/-- Faithful translation of `addVideoToTab(tabId, video)` at time `now`.
The guard models `if (!tabId || !video.url) return` (0 and "" are falsy) and
the blob:/data: scheme rejection. -/
def addVideoToTab (st : Store) (tabId : Option Nat) (v : VideoMsg) (now : Nat) : Store :=
  match tabId with
  | none => st
  | some t =>
    if t = 0 then st
    else if v.url = "" then st
    else if startsWithL (lc "blob:") v.url.data || startsWithL (lc "data:") v.url.data then st
    else
      let u := cleanByteRangeUrl v.url
      let tm := (tabGet st t).getD []
      match mapGet tm u with
      | none => tabSet st t (mapSet tm u (newInfo v now))
      | some e => tabSet st t (mapSet tm u (mergeEntry e v))

/-! ### Query path (background script `getVideosForTab`) -/

/-- `now - info.timestamp > ENTRY_TTL_MS` is the expiry test; alive is its
negation. -/
def aliveB (now : Nat) (i : Info) : Bool := decide (now - i.timestamp ≤ ENTRY_TTL_MS)

/-- The result record pushed for a surviving entry. -/
def mkRanked (url : String) (i : Info) : RankedVideo :=
  { url := url
    size := i.size
    score := scoreVideo url i.size i.source i.quality
    timestamp := i.timestamp
    quality := i.quality
    source := i.source
    title := i.title
    playlist := i.playlist }

/-- The entry loop of `getVideosForTab`: expired entries are deleted from the
map, non-playable survivors are kept in the map but skipped, playable
survivors are kept and pushed as results (in map order). -/
def queryLoop (now : Nat) : TabMap → TabMap × List RankedVideo
  | [] => ([], [])
  | e :: rest =>
    let p := queryLoop now rest
    if !aliveB now e.2 then p
    else if !isPlayableVideo e.1 e.2.contentType e.2.size e.2.source then (e :: p.1, p.2)
    else (e :: p.1, mkRanked e.1 e.2 :: p.2)

/-- JS comparator `(a, b) => b.score - a.score`, tie `b.timestamp - a.timestamp`:
`a` sorts strictly before `b` iff this is true. -/
def bfRanked (a b : RankedVideo) : Bool :=
  decide (b.score < a.score) ||
    (decide (a.score = b.score) && decide (b.timestamp < a.timestamp))

/-- Stable insertion of `x` (a later element of the original list) after every
already-placed element not strictly after it. -/
def insertStable {α : Type} (bf : α → α → Bool) (x : α) : List α → List α
  | [] => [x]
  | y :: ys => if bf y x then y :: insertStable bf x ys else x :: y :: ys

/-- Stable sort by a strict before-relation (models JS `Array.prototype.sort`
with a consistent comparator, which is stable). -/
def isort {α : Type} (bf : α → α → Bool) : List α → List α
  | [] => []
  | x :: xs => insertStable bf x (isort bf xs)

/-- Faithful translation of `getVideosForTab(tabId)` at time `now`, returning
the results together with the mutated store (entry deletion is a mutation of
the per-tab map). Unknown tab: empty results, store untouched. -/
def getVideosForTab (st : Store) (tabId : Nat) (now : Nat) :
    List RankedVideo × Store :=
  match tabGet st tabId with
  | none => ([], st)
  | some m =>
    let p := queryLoop now m
    ((isort bfRanked p.2).take MAX_RESULTS, tabSet st tabId p.1)

/-! ### Manifest parsing

Background `fetchAndParseM3U8` (its pure parsing part, after the fetch) and
the page-context watcher `HLSParser.onLoad` variant extraction. -/

/-- A parsed master-playlist variant. -/
structure Variant where
  url : String
  quality : Option String
deriving DecidableEq

/-- `parseInt(v.quality) || 0` for sorting. -/
def qnumV (v : Variant) : Nat :=
  match v.quality with
  | some q => leadingNat q
  | none => 0

/-- Variant comparator `(a, b) => qb - qa`. -/
def bfVar (a b : Variant) : Bool := decide (qnumV b < qnumV a)

/-- `/RESOLUTION=(\d+)x(\d+)/` at the current position (case-sensitive). -/
def resolutionHere (s : List Char) : Option (Nat × Nat) :=
  match stripL (lc "RESOLUTION=") s with
  | none => none
  | some r =>
    if (r.takeWhile Char.isDigit).isEmpty then none
    else
      match r.dropWhile Char.isDigit with
      | 'x' :: r2 =>
        if (r2.takeWhile Char.isDigit).isEmpty then none
        else some (natOfDigits (r.takeWhile Char.isDigit), natOfDigits (r2.takeWhile Char.isDigit))
      | _ => none

/-- Quality update of one background-parser line: on a RESOLUTION=WxH match,
`min(W, H) + "p"`; otherwise the previous value. -/
def mlineQuality (prev : Option String) (t : List Char) : Option String :=
  match scanFirst resolutionHere t with
  | some wh => some (toString (min wh.1 wh.2) ++ "p")
  | none => prev

/-- Background-parser test for a variant-URL line. -/
def urlLike (t : List Char) : Bool :=
  !t.isEmpty && !startsWithL (lc "#") t &&
    (containsL (lc ".m3u8") t || startsWithL (lc "http://") t ||
     startsWithL (lc "https://") t)

/-- One background-parser line: update (quality, variantUrl); the last
URL-like line of a block wins. -/
def procLine (st : Option String × Option String) (line : List Char) :
    Option String × Option String :=
  let t := trimL line
  (mlineQuality st.1 t, if urlLike t then some (String.mk t) else st.2)

/-- `url.match(/(.+\/)[^\/]+\.m3u8/i)`: the longest prefix ending in `/`
(of length at least 2) whose following segment has at least one non-slash
character before a `.m3u8` occurrence. -/
def tailM3u8Aux : List Char → Bool
  | [] => false
  | c :: rest => startsWithCI (lc ".m3u8") (c :: rest) || (c ≠ '/' && tailM3u8Aux rest)

def tailM3u8 : List Char → Bool
  | [] => false
  | c :: rest => c ≠ '/' && tailM3u8Aux rest

def m3u8BaseAux : List Char → List Char → Option (List Char) → Option (List Char)
  | _, [], best => best
  | accRev, c :: rest, best =>
    m3u8BaseAux (c :: accRev) rest
      (if c = '/' && !accRev.isEmpty && tailM3u8 rest then
        some (c :: accRev).reverse
       else best)

def m3u8Base (s : List Char) : Option (List Char) := m3u8BaseAux [] s none

/-- Resolve a relative variant path against the manifest URL, exactly as both
parsers do (`if (!variantUrl.startsWith("http")) { base + variantUrl }`). -/
def resolveRelative (urlStr : String) (vu : String) : String :=
  if startsWithL (lc "http") vu.data then vu
  else
    match m3u8Base urlStr.data with
    | some b => String.mk b ++ vu
    | none => vu

/-- One background-parser stream block. -/
def procSegment (urlStr : String) (seg : List Char) : Option Variant :=
  if (trimL seg).isEmpty then none
  else
    let st := ((splitOnL (lc "\n") seg).foldl procLine (none, none))
    match st.2 with
    | none => none
    | some vu => some ⟨resolveRelative urlStr vu, st.1⟩

/-- The pure parsing core of the background `fetchAndParseM3U8`: master-index
variants, sorted descending by parsed quality. Non-manifests and single
variant (media) playlists yield no variants here (the background script then
only registers the master URL itself). -/
def parseM3U8Master (text urlStr : String) : List Variant :=
  if !containsL (lc "#EXTM3U") text.data then []
  else if !containsL (lc "#EXT-X-STREAM-INF:") text.data then []
  else
    isort bfVar ((splitOnL (lc "#EXT-X-STREAM-INF:") text.data).filterMap (procSegment urlStr))

/-- `\s` or `,` — the token separators of the watcher HLS parser. -/
def isTokSep (c : Char) : Bool := isWS c || c = ','

/-- Watcher quality extraction: `part.split("=")[1]`, then its
`split("x")[1] + "p"` — the HEIGHT component, not the minimum. -/
def hlsTokenRes (prev : Option String) (t : List Char) : Option String :=
  if containsL (lc "RESOLUTION=") t then
    if ((splitOnL (lc "=") t).getD 1 []).isEmpty then prev
    else some (String.mk ((splitOnL (lc "x") ((splitOnL (lc "=") t).getD 1 [])).getD 1 []) ++ "p")
  else prev

/-- One watcher token: update (quality, variantUrl). -/
def hlsProcTok (st : Option String × Option String) (tok : List Char) :
    Option String × Option String :=
  (hlsTokenRes st.1 tok,
   if !startsWithL (lc "#") tok &&
      (containsL (lc ".m3u8") tok || startsWithL (lc "http://") tok ||
       startsWithL (lc "https://") tok)
   then some (String.mk (trimL tok)) else st.2)

/-- One watcher stream block. -/
def hlsProcSegment (urlStr : String) (seg : List Char) : Option Variant :=
  if (trimL seg).isEmpty then none
  else
    let st := (splitRuns isTokSep seg).foldl hlsProcTok (none, none)
    match st.2 with
    | none => none
    | some vu => some ⟨resolveRelative urlStr vu, st.1⟩

/-- The watcher `HLSParser.onLoad` variant extraction: master playlists yield
sorted variants; a media playlist yields the manifest URL itself. -/
def hlsWatcherVariants (text urlStr : String) : List Variant :=
  if !containsL (lc "#EXTM3U") text.data then []
  else if !containsL (lc ".m3u8") urlStr.data then []
  else if containsL (lc "#EXT-X-STREAM-INF:") text.data then
    isort bfVar ((splitOnL (lc "#EXT-X-STREAM-INF:") text.data).filterMap (hlsProcSegment urlStr))
  else [⟨urlStr, none⟩]

/-! ### Page-context dispatch pipeline (watcher script)

The platform URL API (`new URL`, `searchParams.set`, `toString`) is modelled
for absolute http(s) URLs of the shape `scheme://hostpath[?query][#fragment]`;
percent-encoding of parameter values is not modelled (the claims here are
structural). -/

/-- Parsed URL model. -/
structure UrlParts where
  scheme : String
  hostPath : String
  params : List (String × String)
  fragment : Option String
deriving DecidableEq

/-- One `k=v` (or bare `k`) query token; empty tokens are dropped. -/
def queryPair (tok : List Char) : Option (String × String) :=
  match tok with
  | [] => none
  | _ =>
    match (splitFirst '=' tok).2 with
    | some v => some (String.mk (splitFirst '=' tok).1, String.mk v)
    | none => some (String.mk tok, "")

def parseQuery (q : List Char) : List (String × String) :=
  (splitOnL (lc "&") q).filterMap queryPair

/-- Model of `new URL(s)` restricted to http(s): scheme, host+path, query
parameters and fragment; fails (throws in JS) on anything else. -/
def parseURL (s : String) : Option UrlParts :=
  match stripL (lc "http://") s.data with
  | some r =>
    match splitFirst '#' r with
    | bfr =>
      if (splitFirst '?' bfr.1).1.isEmpty then none
      else
        some { scheme := "http"
               hostPath := String.mk (splitFirst '?' bfr.1).1
               params := match (splitFirst '?' bfr.1).2 with
                         | some qs => parseQuery qs
                         | none => []
               fragment := bfr.2.map String.mk }
  | none =>
    match stripL (lc "https://") s.data with
    | some r =>
      match splitFirst '#' r with
      | bfr =>
        if (splitFirst '?' bfr.1).1.isEmpty then none
        else
          some { scheme := "https"
                 hostPath := String.mk (splitFirst '?' bfr.1).1
                 params := match (splitFirst '?' bfr.1).2 with
                           | some qs => parseQuery qs
                           | none => []
                 fragment := bfr.2.map String.mk }
    | none => none

/-- The watcher `isValidUrl`: parses and has http(s) protocol. -/
def isValidUrl (s : String) : Bool := (parseURL s).isSome

/-- Drop every pair with the given key. -/
def removeKey (k : String) : List (String × String) → List (String × String)
  | [] => []
  | kv :: rest => if kv.1 = k then removeKey k rest else kv :: removeKey k rest

/-- WHATWG `searchParams.set`: overwrite the first pair with this key and
remove the others, or append when absent. -/
def setParam : List (String × String) → String → String → List (String × String)
  | [], k, v => [(k, v)]
  | kv :: rest, k, v =>
    if kv.1 = k then (k, v) :: removeKey k rest else kv :: setParam rest k v

def countKey (ps : List (String × String)) (k : String) : Nat :=
  (ps.filter (fun kv => kv.1 = k)).length

def lookupParam : List (String × String) → String → Option String
  | [], _ => none
  | kv :: rest, k => if kv.1 = k then some kv.2 else lookupParam rest k

def serializeQuery : List (String × String) → String
  | [] => ""
  | kv :: rest =>
    kv.1 ++ "=" ++ kv.2 ++ (match rest with | [] => "" | _ :: _ => "&" ++ serializeQuery rest)

/-- Model of `URL.prototype.toString` for the parsed model. -/
def serializeURL (u : UrlParts) : String :=
  u.scheme ++ "://" ++ u.hostPath ++
    (match u.params with | [] => "" | _ :: _ => "?" ++ serializeQuery u.params) ++
    (match u.fragment with | some f => "#" ++ f | none => "")

/-- `JSON.stringify` of the flat headers object (no escaping needed for the
modelled values). -/
def jsonFields : List (String × String) → String
  | [] => ""
  | kv :: rest =>
    "\"" ++ kv.1 ++ "\":\"" ++ kv.2 ++ "\"" ++
      (match rest with | [] => "" | _ :: _ => "," ++ jsonFields rest)

def headersJson (hs : List (String × String)) : String :=
  "\x7b" ++ jsonFields hs ++ "\x7d"

/-- Faithful translation of the watcher `embedHeaders(videoUrl, referer, origin)`. -/
def embedHeaders (videoUrl referer origin : String) : String :=
  if referer = "" && origin = "" then videoUrl
  else if containsL (lc "headers=") videoUrl.data then videoUrl
  else
    let hs := (if referer ≠ "" && isValidUrl referer then [("referer", referer)] else []) ++
              (if origin ≠ "" && isValidUrl origin then [("origin", origin)] else [])
    if hs.isEmpty then videoUrl
    else
      match parseURL videoUrl with
      | none => videoUrl
      | some u => serializeURL { u with params := setParam u.params "headers" (headersJson hs) }

/-- The parameter list produced by stamping `headers` (referer and origin)
into a parsed URL. -/
def embeddedParams (u : UrlParts) (pr po : String) : List (String × String) :=
  setParam u.params "headers" (headersJson [("referer", pr), ("origin", po)])

/-- The URL produced by stamping `headers` into a parsed URL. -/
def embeddedUrl (u : UrlParts) (pr po : String) : String :=
  serializeURL { u with params := embeddedParams u pr po }

/-- The watcher relay allow-list `isAlreadyProxied`. -/
def isAlreadyProxied (url : String) : Bool :=
  containsCIL (lc "m3u8-proxy?url=") url.data ||
  containsCIL (lc "pipe.sideby.me") url.data ||
  containsCIL (lc "/proxy/?url=") url.data

/-- A candidate in the page context. -/
structure PageVideo where
  url : String
  quality : Option String := none
  source : Option String := none
  title : Option String := none
  playlist : Option Bool := none
  alreadyProxied : Bool := false
deriving DecidableEq

/-- Faithful translation of the watcher `dispatchVideo`: returns the
dispatched candidate (none when suppressed) and the updated `foundVideos`
set. -/
def dispatchVideo (found : List String) (pageReferer pageOrigin : String)
    (v : PageVideo) : Option PageVideo × List String :=
  if v.url = "" then (none, found)
  else if found.contains v.url then (none, found)
  else
    let v1 := if isAlreadyProxied v.url then { v with alreadyProxied := true } else v
    let v2 :=
      if !containsL (lc "headers=") v1.url.data && !v1.alreadyProxied then
        { v1 with url := embedHeaders v1.url pageReferer pageOrigin }
      else v1
    (some v2, v2.url :: found)

/-! ### Concrete scenario inputs used by the claims -/

/-- First adapter candidate of the end-to-end fusion scenario. -/
def c1video1 : VideoMsg := { url := "v.mp4", size := some 200000, source := some "dom" }

/-- Second adapter candidate of the end-to-end fusion scenario. -/
def c1video2 : VideoMsg :=
  { url := "v.mp4", size := some 8000000, contentType := some "video/mp4",
    source := some "webRequest" }

/-- The store after feeding both candidates, in order, for tab 1. -/
def c1state : Store :=
  addVideoToTab (addVideoToTab [] (some 1) c1video1 1000) (some 1) c1video2 2000

/-- Candidate with quality 720p (commutativity counterexample). -/
def c2qa : VideoMsg := { url := "u.mp4", source := some "dom", quality := some "720p" }

/-- Candidate with quality 360p (commutativity counterexample). -/
def c2qb : VideoMsg := { url := "u.mp4", source := some "dom", quality := some "360p" }

/-- A demo tab map: one expired entry, one playable survivor. -/
def c3map : TabMap :=
  [("https://x/old.mp4",
    { size := some 9000000, contentType := none, timestamp := 0,
      source := some "webRequest", quality := none, title := none, playlist := none }),
   ("https://x/v.mp4",
    { size := some 9000000, contentType := none, timestamp := 200000,
      source := some "webRequest", quality := none, title := none, playlist := none })]

/-- A demo store holding `c3map` for tab 1. -/
def c3state : Store := [(1, c3map)]

/-- A master index with 1280x720 and 640x360 streams and relative paths. -/
def c6masterText : String :=
  "#EXTM3U\n#EXT-X-STREAM-INF:RESOLUTION=1280x720\nhigh/v1.m3u8\n#EXT-X-STREAM-INF:RESOLUTION=640x360\nlow/v2.m3u8\n"

/-- A master index with one portrait 720x1280 stream. -/
def c6portraitText : String :=
  "#EXTM3U\n#EXT-X-STREAM-INF:RESOLUTION=720x1280\nhttp://h/v1.m3u8\n"

/-! ### Helper lemmas: stable sort -/

theorem mem_insertStable {α : Type} (bf : α → α → Bool) (x z : α) :
    ∀ l : List α, z ∈ insertStable bf x l → z = x ∨ z ∈ l := by
  intro l
  induction l with
  | nil =>
    intro h
    simp [insertStable] at h
    exact Or.inl h
  | cons y ys ih =>
    intro h
    cases hyx : bf y x with
    | true =>
      rw [insertStable, hyx, if_pos rfl] at h
      rcases List.mem_cons.mp h with rfl | h2
      · exact Or.inr (List.mem_cons_self _ _)
      · rcases ih h2 with rfl | h3
        · exact Or.inl rfl
        · exact Or.inr (List.mem_cons_of_mem _ h3)
    | false =>
      rw [insertStable, hyx] at h
      simp only [Bool.false_eq_true, if_false] at h
      rcases List.mem_cons.mp h with rfl | h2
      · exact Or.inl rfl
      · exact Or.inr h2

theorem pairwise_insertStable {α : Type} {bf : α → α → Bool}
    (asym : ∀ a b, bf a b = true → bf b a = false)
    (negtrans : ∀ a b c, bf a b = false → bf b c = false → bf a c = false)
    (x : α) :
    ∀ l : List α, l.Pairwise (fun a b => bf b a = false) →
      (insertStable bf x l).Pairwise (fun a b => bf b a = false) := by
  intro l
  induction l with
  | nil =>
    intro _
    simp [insertStable]
  | cons y ys ih =>
    intro h
    rw [List.pairwise_cons] at h
    cases hyx : bf y x with
    | true =>
      rw [insertStable, hyx, if_pos rfl, List.pairwise_cons]
      refine ⟨?_, ih h.2⟩
      intro z hz
      rcases mem_insertStable bf x z ys hz with rfl | hzys
      · exact asym y z hyx
      · exact h.1 z hzys
    | false =>
      rw [insertStable, hyx]
      simp only [Bool.false_eq_true, if_false]
      rw [List.pairwise_cons]
      refine ⟨?_, List.pairwise_cons.mpr h⟩
      intro z hz
      rcases List.mem_cons.mp hz with rfl | hzys
      · exact hyx
      · exact negtrans z y x (h.1 z hzys) hyx

theorem pairwise_isort {α : Type} {bf : α → α → Bool}
    (asym : ∀ a b, bf a b = true → bf b a = false)
    (negtrans : ∀ a b c, bf a b = false → bf b c = false → bf a c = false) :
    ∀ l : List α, (isort bf l).Pairwise (fun a b => bf b a = false) := by
  intro l
  induction l with
  | nil => simp [isort]
  | cons x xs ih =>
    rw [isort]
    exact pairwise_insertStable asym negtrans x _ ih

theorem pairwise_take {α : Type} {R : α → α → Prop} (n : Nat) (l : List α)
    (h : l.Pairwise R) : (l.take n).Pairwise R :=
  h.sublist (List.take_sublist n l)

theorem take_length_le {α : Type} (n : Nat) (l : List α) : (l.take n).length ≤ n := by
  rw [List.length_take]
  exact Nat.min_le_left _ _

theorem bfRanked_asym (a b : RankedVideo) (h : bfRanked a b = true) :
    bfRanked b a = false := by
  simp only [bfRanked, Bool.or_eq_true, Bool.and_eq_true, decide_eq_true_eq] at h
  simp only [bfRanked, Bool.or_eq_false_iff, Bool.and_eq_false_iff, decide_eq_false_iff_not]
  omega

theorem bfRanked_negtrans (a b c : RankedVideo)
    (h1 : bfRanked a b = false) (h2 : bfRanked b c = false) : bfRanked a c = false := by
  simp only [bfRanked, Bool.or_eq_false_iff, Bool.and_eq_false_iff,
    decide_eq_false_iff_not] at h1 h2 ⊢
  omega

theorem bfVar_asym (a b : Variant) (h : bfVar a b = true) : bfVar b a = false := by
  simp only [bfVar, decide_eq_true_eq] at h
  simp only [bfVar, decide_eq_false_iff_not]
  omega

theorem bfVar_negtrans (a b c : Variant)
    (h1 : bfVar a b = false) (h2 : bfVar b c = false) : bfVar a c = false := by
  simp only [bfVar, decide_eq_false_iff_not] at h1 h2 ⊢
  omega

/-! ### Helper lemmas: registry maps -/

theorem tabGet_tabSet (st : Store) (t : Nat) (m : TabMap) :
    tabGet (tabSet st t m) t = some m := by
  induction st with
  | nil => simp [tabGet, tabSet]
  | cons kv rest ih =>
    by_cases h : kv.1 = t
    · simp [tabGet, tabSet, h]
    · simp [tabGet, tabSet, h, ih]

theorem tabSet_tabSet (st : Store) (t : Nat) (a b : TabMap) :
    tabSet (tabSet st t a) t b = tabSet st t b := by
  induction st with
  | nil => simp [tabSet]
  | cons kv rest ih =>
    by_cases h : kv.1 = t
    · simp [tabSet, h]
    · simp [tabSet, h, ih]

theorem mapGet_mapSet (m : TabMap) (k : String) (v : Info) :
    mapGet (mapSet m k v) k = some v := by
  induction m with
  | nil => simp [mapGet, mapSet]
  | cons kv rest ih =>
    by_cases h : kv.1 = k
    · simp [mapGet, mapSet, h]
    · simp [mapGet, mapSet, h, ih]

theorem mapSet_mapSet (m : TabMap) (k : String) (a b : Info) :
    mapSet (mapSet m k a) k b = mapSet m k b := by
  induction m with
  | nil => simp [mapSet]
  | cons kv rest ih =>
    by_cases h : kv.1 = k
    · simp [mapSet, h]
    · simp [mapSet, h, ih]

/-! ### Helper lemmas: merge -/

theorem mergeEntry_newInfo (v : VideoMsg) (now : Nat) :
    mergeEntry (newInfo v now) v = newInfo v now := by
  cases hq : strTruthy v.quality <;> cases ht : strTruthy v.title <;>
    simp [mergeEntry, newInfo, hq, ht, lt_self_iff_false]

theorem mergeEntry_mergeEntry (e : Info) (v : VideoMsg) :
    mergeEntry (mergeEntry e v) v = mergeEntry e v := by
  by_cases hs : prioOf v.source > prioOf e.source <;>
    cases hq : strTruthy v.quality <;> cases he : strTruthy e.quality <;>
    cases ht : strTruthy v.title <;> cases hf : strTruthy e.title <;>
    simp [mergeEntry, hs, hq, he, ht, hf, lt_self_iff_false]

theorem addVideoToTab_idem (st : Store) (tab : Option Nat) (v : VideoMsg)
    (t1 t2 : Nat) :
    addVideoToTab (addVideoToTab st tab v t1) tab v t2 = addVideoToTab st tab v t1 := by
  cases tab with
  | none => rfl
  | some t =>
    by_cases h0 : t = 0
    · simp [addVideoToTab, h0]
    by_cases h1 : v.url = ""
    · simp [addVideoToTab, h0, h1]
    by_cases h2 : (startsWithL (lc "blob:") v.url.data || startsWithL (lc "data:") v.url.data) = true
    · simp [addVideoToTab, h0, h1, h2]
    · rw [Bool.not_eq_true] at h2
      cases hm : mapGet ((tabGet st t).getD []) (cleanByteRangeUrl v.url) with
      | none =>
        simp only [addVideoToTab, h0, h1, h2, hm, if_false, ite_false, Bool.false_eq_true]
        simp only [tabGet_tabSet, Option.getD_some, mapGet_mapSet,
          mergeEntry_newInfo, mapSet_mapSet, tabSet_tabSet]
      | some e =>
        simp only [addVideoToTab, h0, h1, h2, hm, if_false, ite_false, Bool.false_eq_true]
        simp only [tabGet_tabSet, Option.getD_some, mapGet_mapSet,
          mergeEntry_mergeEntry, mapSet_mapSet, tabSet_tabSet]

/-! ### Helper lemmas: scanners and replacement passes -/

theorem scanAny_eq_false {p : List Char → Bool} :
    ∀ {s : List Char}, scanAny p s = false → ∀ t, t <:+ s → p t = false := by
  intro s
  induction s with
  | nil =>
    intro h t ht
    rw [List.suffix_nil.mp ht]
    rw [scanAny] at h
    exact h
  | cons c rest ih =>
    intro h t ht
    rw [scanAny, Bool.or_eq_false_iff] at h
    obtain ⟨u, hu⟩ := ht
    cases u with
    | nil =>
      simp only [List.nil_append] at hu
      rw [hu]
      exact h.1
    | cons d du =>
      have hdu : du ++ t = rest := by
        have := hu
        rw [List.cons_append] at this
        exact (List.cons.injEq _ _ _ _).mp this |>.2
      exact ih h.2 t ⟨du, hdu⟩

theorem startsWithCI_append (p q : List Char) :
    ∀ t : List Char, startsWithCI (p ++ q) t = true → startsWithCI p t = true := by
  induction p with
  | nil => intro t _; rfl
  | cons a ps ih =>
    intro t h
    cases t with
    | nil => simp [startsWithCI] at h
    | cons c cs =>
      rw [List.cons_append, startsWithCI, Bool.and_eq_true] at h
      rw [startsWithCI, Bool.and_eq_true]
      exact ⟨h.1, ih cs h.2⟩

theorem stripCI_none_of_not_starts :
    ∀ (p t : List Char), startsWithCI p t = false → stripCI p t = none := by
  intro p
  induction p with
  | nil => intro t h; simp [startsWithCI] at h
  | cons a ps ih =>
    intro t h
    cases t with
    | nil => rfl
    | cons c cs =>
      rw [startsWithCI, Bool.and_eq_false_iff] at h
      rcases h with h1 | h2
      · rw [stripCI, if_neg (by simpa using h1)]
      · by_cases hc : ciEq a c = true
        · rw [stripCI, if_pos hc]
          exact ih cs h2
        · rw [stripCI, if_neg hc]

/-- If the bare token never occurs (case-insensitively) in `s`, then no suffix
of `s` starts with `c0 :: token ++ tail`. -/
theorem no_cons_token_start (token tail : List Char) (c0 : Char) (s : List Char)
    (hscan : scanAny (fun u => startsWithCI token u) s = false) :
    ∀ t, t <:+ s → startsWithCI (c0 :: (token ++ tail)) t = false := by
  intro t ht
  cases t with
  | nil => rfl
  | cons c cs =>
    rw [startsWithCI]
    cases hci : ciEq c0 c with
    | false => rfl
    | true =>
      rw [Bool.true_and]
      cases hsw : startsWithCI (token ++ tail) cs with
      | false => rfl
      | true =>
        exfalso
        have h1 : startsWithCI token cs = true := startsWithCI_append token tail cs hsw
        have h2 : cs <:+ s := (List.suffix_cons c cs).trans ht
        rw [scanAny_eq_false hscan cs h2] at h1
        exact Bool.false_ne_true h1

theorem replacePass_id (mr : List Char → Option (List Char × List Char)) :
    ∀ (fuel : Nat) (s : List Char), (∀ t, t <:+ s → mr t = none) →
      replacePass mr fuel s = s := by
  intro fuel
  induction fuel with
  | zero => intro s _; rfl
  | succ n ih =>
    intro s h
    cases s with
    | nil => rfl
    | cons c rest =>
      have h0 : mr (c :: rest) = none := h _ (List.suffix_refl _)
      have h1 : ∀ t, t <:+ rest → mr t = none := fun t ht =>
        h t (ht.trans (List.suffix_cons c rest))
      rw [replacePass, h0, ih rest h1]

/-- A string with no case-insensitive occurrence of `bytestart` or `byteend`
and no trailing question mark is left unchanged by the normalizer. -/
theorem clean_id_of_no_byterange (s : String)
    (h1 : containsTokenCI "bytestart" s = false)
    (h2 : containsTokenCI "byteend" s = false)
    (h3 : s.data.getLast? ≠ some '?') :
    cleanByteRangeUrl s = s := by
  have hb1 : scanAny (fun u => startsWithCI (lc "bytestart") u) s.data = false := by
    simpa [containsTokenCI, containsCIL, lc] using h1
  have hb2 : scanAny (fun u => startsWithCI (lc "byteend") u) s.data = false := by
    simpa [containsTokenCI, containsCIL, lc] using h2
  have hm1 : ∀ t, t <:+ s.data → mrAmpStart t = none := by
    intro t ht
    have hs : startsWithCI ('&' :: (lc "bytestart" ++ lc "=")) t = false :=
      no_cons_token_start (lc "bytestart") (lc "=") '&' s.data hb1 t ht
    have he : lc "&bytestart=" = '&' :: (lc "bytestart" ++ lc "=") := by decide
    rw [mrAmpStart, he, stripCI_none_of_not_starts _ _ hs]
  have hm2 : ∀ t, t <:+ s.data → mrAmpEnd t = none := by
    intro t ht
    have hs : startsWithCI ('&' :: (lc "byteend" ++ lc "=")) t = false :=
      no_cons_token_start (lc "byteend") (lc "=") '&' s.data hb2 t ht
    have he : lc "&byteend=" = '&' :: (lc "byteend" ++ lc "=") := by decide
    rw [mrAmpEnd, he, stripCI_none_of_not_starts _ _ hs]
  have hm3 : ∀ t, t <:+ s.data → mrQStart t = none := by
    intro t ht
    have hs : startsWithCI ('?' :: (lc "bytestart" ++ lc "=")) t = false :=
      no_cons_token_start (lc "bytestart") (lc "=") '?' s.data hb1 t ht
    have he : lc "?bytestart=" = '?' :: (lc "bytestart" ++ lc "=") := by decide
    rw [mrQStart, he, stripCI_none_of_not_starts _ _ hs]
  have e1 : runPass mrAmpStart s.data = s.data := by
    rw [runPass]; exact replacePass_id _ _ _ hm1
  have e2 : runPass mrAmpEnd s.data = s.data := by
    rw [runPass]; exact replacePass_id _ _ _ hm2
  have e3 : runPass mrQStart s.data = s.data := by
    rw [runPass]; exact replacePass_id _ _ _ hm3
  rw [cleanByteRangeUrl, e1, e2, e3, dropTrailingQ, if_neg h3]

/-! ### Helper lemmas: search parameters -/

theorem countKey_removeKey (k : String) :
    ∀ ps : List (String × String), countKey (removeKey k ps) k = 0 := by
  intro ps
  induction ps with
  | nil => rfl
  | cons kv rest ih =>
    by_cases h : kv.1 = k
    · simp [removeKey, h, ih]
    · simp [removeKey, countKey, List.filter_cons, h] at ih ⊢
      exact ih

theorem countKey_setParam (k v : String) :
    ∀ ps : List (String × String), countKey (setParam ps k v) k = 1 := by
  intro ps
  induction ps with
  | nil => simp [setParam, countKey, List.filter_cons]
  | cons kv rest ih =>
    by_cases h : kv.1 = k
    · simp [setParam, h, countKey, List.filter_cons]
      have := countKey_removeKey k rest
      simpa [countKey] using this
    · simp [setParam, h, countKey, List.filter_cons] at ih ⊢
      exact ih

theorem lookupParam_setParam_self (k v : String) :
    ∀ ps : List (String × String), lookupParam (setParam ps k v) k = some v := by
  intro ps
  induction ps with
  | nil => simp [setParam, lookupParam]
  | cons kv rest ih =>
    by_cases h : kv.1 = k
    · simp [setParam, h, lookupParam]
    · simp [setParam, h, lookupParam, ih]

theorem lookupParam_removeKey (k k' : String) (h : k' ≠ k) :
    ∀ ps : List (String × String), lookupParam (removeKey k ps) k' = lookupParam ps k' := by
  intro ps
  induction ps with
  | nil => rfl
  | cons kv rest ih =>
    by_cases hk : kv.1 = k
    · rw [removeKey, if_pos hk, ih, lookupParam, if_neg (by rw [hk]; exact fun he => h he.symm)]
    · rw [removeKey, if_neg hk, lookupParam, lookupParam]
      by_cases hk' : kv.1 = k'
      · rw [if_pos hk', if_pos hk']
      · rw [if_neg hk', if_neg hk', ih]

theorem lookupParam_setParam_other (k v k' : String) (h : k' ≠ k) :
    ∀ ps : List (String × String),
      lookupParam (setParam ps k v) k' = lookupParam ps k' := by
  intro ps
  induction ps with
  | nil =>
    have hk : ¬ k = k' := fun he => h he.symm
    simp [setParam, lookupParam, hk]
  | cons kv rest ih =>
    by_cases hk : kv.1 = k
    · rw [setParam, if_pos hk, lookupParam, if_neg (fun he : k = k' => h he.symm),
        lookupParam, if_neg (by rw [hk]; exact fun he : k = k' => h he.symm)]
      exact lookupParam_removeKey k k' h rest
    · rw [setParam, if_neg hk, lookupParam, lookupParam, ih]

/-- `embedHeaders` leaves a URL unchanged when the platform URL parser rejects
it. -/
theorem embedHeaders_invalid (u pr po : String) (hp : parseURL u = none) :
    embedHeaders u pr po = u := by
  rw [embedHeaders]
  split_ifs <;> simp [hp]

theorem isValidUrl_ne_empty {x : String} (h : isValidUrl x = true) : x ≠ "" := by
  intro he
  rw [he] at h
  have h0 : isValidUrl "" = false := by decide
  rw [h0] at h
  exact Bool.false_ne_true h

/-! ### Helper lemmas: query loop -/

theorem queryLoop_eq (now : Nat) (m : TabMap) :
    queryLoop now m =
      (m.filter (fun e => aliveB now e.2),
       ((m.filter (fun e => aliveB now e.2)).filter
          (fun e => isPlayableVideo e.1 e.2.contentType e.2.size e.2.source)).map
         (fun e => mkRanked e.1 e.2)) := by
  induction m with
  | nil => rfl
  | cons e rest ih =>
    cases ha : aliveB now e.2 <;>
      cases hp : isPlayableVideo e.1 e.2.contentType e.2.size e.2.source <;>
      simp [queryLoop, List.filter_cons, ha, hp, ih]

/-! ### Claim theorems -/

/-- C1 counterexample: after feeding `{dom, v.mp4, 200000}` and then
`{webRequest, v.mp4, 8000000, video/mp4}` for tab 1, `getVideosForTab`
returns no entry at all for that tab — not one merged entry of size
8,000,000 — because the merge never updates `size` and the stored size
200,000 is below the classifier minimum. -/
theorem c1_fusion_counterexample :
    (getVideosForTab c1state 1 3000).1 = [] ∧
    ¬ ∃ r ∈ (getVideosForTab c1state 1 3000).1,
        r.url = "v.mp4" ∧ r.size = some 8000000 := by
  exact ⟨by decide, by decide⟩

/-- C1 amended: the registry holds exactly one merged entry for `v.mp4`
(insert-or-merge, never two); its size stays 200,000 and its source stays
`dom` because merge only upgrades source/quality/title, and the query then
returns nothing since 200,000 is below the 500,000-byte minimum. -/
theorem c1_fusion_amended :
    tabGet c1state 1 =
      some [("v.mp4",
        { size := some 200000, contentType := none, timestamp := 1000,
          source := some "dom", quality := none, title := none,
          playlist := none })]
  ∧ (getVideosForTab c1state 1 3000).1 = [] := by
  exact ⟨by decide, by decide⟩

/-- C2 counterexample: merge is not commutative — two candidates for the same
URL that differ only in quality (720p vs 360p) produce different final
entries in the two orders, because quality is first-writer-wins. -/
theorem c2_merge_counterexample :
    addVideoToTab (addVideoToTab [] (some 1) c2qa 0) (some 1) c2qb 0 ≠
      addVideoToTab (addVideoToTab [] (some 1) c2qb 0) (some 1) c2qa 0 := by
  decide

/-- C2 amended: merge is idempotent (applying the same candidate twice, at any
times, equals applying it once); the source priority never decreases; a
present (truthy) quality or title is never overwritten; and for the
dom/instagram pair both orders end with source = instagram. Commutativity in
general fails (see the counterexample). -/
theorem c2_merge_amended (st : Store) (tab : Option Nat) (v w : VideoMsg)
    (e : Info) (t1 t2 : Nat) :
    addVideoToTab (addVideoToTab st tab v t1) tab v t2 = addVideoToTab st tab v t1
  ∧ prioOf e.source ≤ prioOf (mergeEntry e w).source
  ∧ (strTruthy e.quality = true → (mergeEntry e w).quality = e.quality)
  ∧ (strTruthy e.title = true → (mergeEntry e w).title = e.title)
  ∧ (mergeEntry { e with source := some "dom" }
       { w with source := some "instagram" }).source = some "instagram"
  ∧ (mergeEntry { e with source := some "instagram" }
       { w with source := some "dom" }).source = some "instagram" := by
  refine ⟨addVideoToTab_idem st tab v t1 t2, ?_, ?_, ?_, ?_, ?_⟩
  · by_cases h : prioOf w.source > prioOf e.source
    · simp only [mergeEntry, if_pos h]
      exact le_of_lt h
    · simp only [mergeEntry, if_neg h]
      exact le_refl _
  · intro h
    simp [mergeEntry, h]
  · intro h
    simp [mergeEntry, h]
  · simp only [mergeEntry]
    rw [if_pos (by decide : prioOf (some "instagram") > prioOf (some "dom"))]
  · simp only [mergeEntry]
    rw [if_neg (by decide : ¬ prioOf (some "dom") > prioOf (some "instagram"))]

/-- C2 witness: idempotence and quality preservation at concrete inputs. -/
theorem c2_merge_amended_witness :
    addVideoToTab (addVideoToTab [] (some 1) c2qa 5) (some 1) c2qa 9 =
      addVideoToTab [] (some 1) c2qa 5
  ∧ (mergeEntry
      { size := none, contentType := none, timestamp := 0, source := some "dom",
        quality := some "720p", title := some "t", playlist := none } c2qb).quality =
      some "720p" := by
  have h := c2_merge_amended [] (some 1) c2qa c2qb
    { size := none, contentType := none, timestamp := 0, source := some "dom",
      quality := some "720p", title := some "t", playlist := none } 5 9
  exact ⟨h.1, h.2.2.1 (by decide)⟩

/-- C3: `getVideosForTab` returns at most `MAX_RESULTS` entries, sorted
descending by score with ties broken by most-recent timestamp; an unknown tab
yields an empty list with the store untouched; and for a known tab the per-tab
map is rewritten with every TTL-expired entry deleted (not merely filtered
from the results), while the results are the classifier-filtered, scored,
sorted survivors truncated to the cap. -/
theorem c3_query_contract (st : Store) (t now : Nat) :
    (getVideosForTab st t now).1.length ≤ MAX_RESULTS
  ∧ (getVideosForTab st t now).1.Pairwise (fun a b => bfRanked b a = false)
  ∧ (tabGet st t = none → getVideosForTab st t now = ([], st))
  ∧ (∀ m, tabGet st t = some m →
      (getVideosForTab st t now).1 =
        (isort bfRanked
          (((m.filter (fun e => aliveB now e.2)).filter
              (fun e => isPlayableVideo e.1 e.2.contentType e.2.size e.2.source)).map
            (fun e => mkRanked e.1 e.2))).take MAX_RESULTS
    ∧ (getVideosForTab st t now).2 = tabSet st t (m.filter (fun e => aliveB now e.2))) := by
  cases hm : tabGet st t with
  | none =>
    refine ⟨?_, ?_, fun _ => ?_, fun m hsome => ?_⟩
    · simp [getVideosForTab, hm]
    · simp [getVideosForTab, hm]
    · simp [getVideosForTab, hm]
    · simp at hsome
  | some m =>
    have hq := queryLoop_eq now m
    have hres : (getVideosForTab st t now).1 =
        (isort bfRanked (queryLoop now m).2).take MAX_RESULTS := by
      simp [getVideosForTab, hm]
    have hst : (getVideosForTab st t now).2 = tabSet st t (queryLoop now m).1 := by
      simp [getVideosForTab, hm]
    refine ⟨?_, ?_, fun hnone => ?_, fun m' hsome => ?_⟩
    · rw [hres]
      exact take_length_le _ _
    · rw [hres]
      exact pairwise_take _ _ (pairwise_isort bfRanked_asym bfRanked_negtrans _)
    · simp at hnone
    · injection hsome with hmm
      subst hmm
      constructor
      · rw [hres, hq]
      · rw [hst, hq]

/-- C3 witness: unknown context yields an empty list and an untouched store;
for the demo context the expired entry is deleted from the map. -/
theorem c3_query_contract_witness :
    getVideosForTab c3state 9 700000 = ([], c3state)
  ∧ (getVideosForTab c3state 1 700000).2 =
      tabSet c3state 1 (c3map.filter (fun e => aliveB 700000 e.2)) := by
  constructor
  · exact (c3_query_contract c3state 9 700000).2.2.1 (by decide)
  · exact ((c3_query_contract c3state 1 700000).2.2.2 c3map (by decide)).2

/-- C4 counterexample: the classifier does not reject every `.webm` URL — a
`.webm` URL tagged with the dedicated-parser source `instagram` is accepted
by the high-priority short-circuit. -/
theorem c4_classifier_counterexample :
    isPlayableVideo "https://x/a.webm" none none (some "instagram") = true := by
  decide

/-- C4 amended: any candidate whose source tag has priority at least 75 is
accepted regardless of URL; for candidates without such a source and with a
non-YouTube URL, the classifier rejects every `.webm` URL, every URL matching
a segment-naming pattern, every audio-only URL, and every candidate with a
declared nonzero size below 500,000 (in particular a `.mp4` of size 100,000);
a plain `.mp4` URL with no declared size is accepted (absence of size never
disqualifies). -/
theorem c4_classifier_amended (url : String) (ct : Option String)
    (sz : Option Nat) (src : Option String) (s : String) (p : Int) (n : Nat) :
    (lookupPriority SOURCE_PRIORITY s = some p → 75 ≤ p → s ≠ "" →
       isPlayableVideo url ct sz (some s) = true)
  ∧ (sourceHighPriority src = false → youtubeUrlTest url = false →
       webmExtTest (lowerData url) = true → isPlayableVideo url ct sz src = false)
  ∧ (sourceHighPriority src = false → youtubeUrlTest url = false →
       segmentPatternsTest (lowerData url) = true → isPlayableVideo url ct sz src = false)
  ∧ (sourceHighPriority src = false → youtubeUrlTest url = false →
       audioOnlyTest (lowerData url) = true → isPlayableVideo url ct sz src = false)
  ∧ (sourceHighPriority src = false → youtubeUrlTest url = false →
       n ≠ 0 → n < MIN_VIDEO_SIZE_BYTES → isPlayableVideo url ct (some n) src = false)
  ∧ isPlayableVideo "https://x/v.mp4" none none none = true
  ∧ isPlayableVideo "https://x/v.mp4" none (some 100000) none = false
  ∧ isPlayableVideo "https://x/seg-12.ts" none none none = false
  ∧ isPlayableVideo "https://x/audio-only.mp4" none none none = false := by
  refine ⟨?_, ?_, ?_, ?_, ?_, by decide, by decide, by decide, by decide⟩
  · intro hl hp hs
    have hh : sourceHighPriority (some s) = true := by
      simp [sourceHighPriority, hl, hs, hp]
    simp [isPlayableVideo, hh]
  · intro hh hy hw
    simp [isPlayableVideo, hh, hy, hw]
  · intro hh hy hseg
    simp [isPlayableVideo, hh, hy, hseg]
  · intro hh hy haud
    simp [isPlayableVideo, hh, hy, haud]
  · intro hh hy hn hlt
    have h1 : sizeTruthy (some n) = true := by simp [sizeTruthy, hn]
    have h2 : decide (sizeVal (some n) < MIN_VIDEO_SIZE_BYTES) = true := by
      simp only [sizeVal]
      exact decide_eq_true hlt
    simp [isPlayableVideo, hh, hy, h1, h2]

/-- C4 witness: the instagram short-circuit and the unqualified `.webm`
rejection at a concrete URL. -/
theorem c4_classifier_amended_witness :
    isPlayableVideo "https://x/b.webm" none none (some "instagram") = true
  ∧ isPlayableVideo "https://x/b.webm" none none none = false := by
  have h := c4_classifier_amended "https://x/b.webm" none none none "instagram" 100 1
  exact ⟨h.1 (by decide) (by decide) (by decide),
         h.2.1 (by decide) (by decide) (by decide)⟩

/-- C5 counterexample: a `.m4s` URL with declared size 2,000,000 (four times
the minimum) is rejected outright by the dedicated m4s filter — the classifier
does not continue to the later checks despite the large size. -/
theorem c5_segment_rescue_counterexample :
    isPlayableVideo "https://x/a.m4s" none (some 2000000) none = false := by
  decide

/-- C5 amended: for a candidate that reaches the extension check (no
high-priority source, not a YouTube/webm/m4s URL, no video extension or video
content type) with a segment extension and declared size above twice the
minimum, the classifier continues to the later checks — its verdict is
exactly the segment-pattern and audio-only screening (the minimum-size check
passes at such sizes). A large `.ts` segment is thus accepted, while `.m4s`
URLs are rejected before the rescue by the dedicated filter. -/
theorem c5_segment_rescue_amended (url : String) (ct : Option String)
    (src : Option String) (n : Nat)
    (h1 : sourceHighPriority src = false) (h2 : youtubeUrlTest url = false)
    (h3 : webmExtTest (lowerData url) = false) (h4 : m4sExtTest (lowerData url) = false)
    (h5 : videoExtTest (lowerData url) = false) (h6 : ctTruthyTest ct = false)
    (h7 : segmentExtTest (lowerData url) = true)
    (h8 : MIN_VIDEO_SIZE_BYTES * 2 < n) :
    isPlayableVideo url ct (some n) src =
      (!segmentPatternsTest (lowerData url) && !audioOnlyTest (lowerData url))
  ∧ isPlayableVideo "https://x/a.ts" none (some 2000000) none = true
  ∧ isPlayableVideo "https://x/a.m4s" none (some 2000000) none = false := by
  refine ⟨?_, by decide, by decide⟩
  have hn0 : n ≠ 0 := by
    simp only [MIN_VIDEO_SIZE_BYTES] at h8
    omega
  have hstz : sizeTruthy (some n) = true := by simp [sizeTruthy, hn0]
  have hbig : decide (MIN_VIDEO_SIZE_BYTES * 2 < sizeVal (some n)) = true := by
    simp only [sizeVal]
    exact decide_eq_true h8
  have hsmall : decide (sizeVal (some n) < MIN_VIDEO_SIZE_BYTES) = false := by
    simp only [sizeVal]
    have : ¬ n < MIN_VIDEO_SIZE_BYTES := by
      simp only [MIN_VIDEO_SIZE_BYTES] at h8 ⊢
      omega
    exact decide_eq_false this
  cases hsp : segmentPatternsTest (lowerData url) <;>
    cases hao : audioOnlyTest (lowerData url) <;>
    simp [isPlayableVideo, h1, h2, h3, h4, h5, h6, h7, hsp, hao, hstz, hbig, hsmall]

/-- C5 witness: the rescue at a concrete large `.ts` URL. -/
theorem c5_segment_rescue_amended_witness :
    isPlayableVideo "https://x/a.ts" none (some 2000000) none =
      (!segmentPatternsTest (lowerData "https://x/a.ts") &&
       !audioOnlyTest (lowerData "https://x/a.ts")) :=
  (c5_segment_rescue_amended "https://x/a.ts" none none 2000000 (by decide)
    (by decide) (by decide) (by decide) (by decide) (by decide) (by decide)
    (by decide)).1

/-- C6 counterexample: the page-context HLS watcher parser does not use
`min(W, H)`: on a portrait `RESOLUTION=720x1280` stream it produces quality
`1280p` (the height component), not `720p`. -/
theorem c6_manifest_counterexample :
    hlsWatcherVariants c6portraitText "http://h/master.m3u8" =
      [{ url := "http://h/v1.m3u8", quality := some "1280p" }]
  ∧ ("1280p" : String) ≠ "720p" := by
  exact ⟨by decide, by decide⟩

/-- C6 amended: the background manifest parser derives quality `min(W,H)p`,
resolves relative variant paths against the manifest directory, and returns
variants sorted descending by parsed quality (the 1280x720/640x360 master
yields exactly `720p`, `360p` with resolved URLs); the watcher parser instead
uses the height component (720x1280 gives `1280p`). -/
theorem c6_manifest_amended (text urlStr : String) :
    (parseM3U8Master text urlStr).Pairwise (fun a b => qnumV b ≤ qnumV a)
  ∧ parseM3U8Master c6masterText "https://h/d/master.m3u8" =
      [{ url := "https://h/d/high/v1.m3u8", quality := some "720p" },
       { url := "https://h/d/low/v2.m3u8", quality := some "360p" }]
  ∧ hlsWatcherVariants c6portraitText "http://h/master.m3u8" =
      [{ url := "http://h/v1.m3u8", quality := some "1280p" }] := by
  refine ⟨?_, by decide, by decide⟩
  rw [parseM3U8Master]
  split_ifs with hA hB
  · exact List.Pairwise.nil
  · exact List.Pairwise.nil
  · exact (pairwise_isort bfVar_asym bfVar_negtrans _).imp
      (fun hab => Nat.le_of_not_lt (by simpa [bfVar] using hab))

/-- C7 counterexample: a `byteend` parameter in the `?key=val` position is not
removed by the normalizer (only `&byteend=` and the two bytestart shapes are),
refuting removal of byteend in both positions. -/
theorem c7_normalizer_counterexample :
    cleanByteRangeUrl "a?byteend=5" = "a?byteend=5" ∧
    cleanByteRangeUrl "a?byteend=5" ≠ "a" := by
  exact ⟨by decide, by decide⟩

/-- C7 amended: the normalizer removes `&bytestart=digits`, `&byteend=digits`
and `?bytestart=digits&?` (collapsed to `?`) plus one dangling trailing `?`;
`?byteend=` is kept; a string containing no byte-range token (case
insensitively) and not ending in `?` is returned unchanged; total on all
inputs; the spec example normalizes as stated. Idempotence fails on
adversarial inputs where one removal splices a new `&bytestart=` occurrence
(last two conjuncts). -/
theorem c7_normalizer_amended (s : String)
    (h1 : containsTokenCI "bytestart" s = false)
    (h2 : containsTokenCI "byteend" s = false)
    (h3 : s.data.getLast? ≠ some '?') :
    cleanByteRangeUrl s = s
  ∧ cleanByteRangeUrl "a?x=1&bytestart=5" = "a?x=1"
  ∧ cleanByteRangeUrl "a?bytestart=7&x=2" = "a?x=2"
  ∧ cleanByteRangeUrl "a?bytestart=3" = "a"
  ∧ cleanByteRangeUrl "a&byteend=9" = "a"
  ∧ cleanByteRangeUrl "a?byteend=5" = "a?byteend=5"
  ∧ cleanByteRangeUrl "a?x=&bytest&bytestart=art=1" = "a?x=&bytestart=1"
  ∧ cleanByteRangeUrl (cleanByteRangeUrl "a?x=&bytest&bytestart=art=1") = "a?x=" :=
  ⟨clean_id_of_no_byterange s h1 h2 h3, by decide, by decide, by decide, by decide,
   by decide, by decide, by decide⟩

/-- C7 witness: a byte-range-free URL is unchanged. -/
theorem c7_normalizer_amended_witness :
    cleanByteRangeUrl "https://h/v.mp4?x=1" = "https://h/v.mp4?x=1" :=
  (c7_normalizer_amended "https://h/v.mp4?x=1" (by decide) (by decide)
    (by decide)).1

/-- C8 counterexample: the content script emits the source tag `youtube`
(checkYouTube), but the priority table has no entry for it — the table is not
total over the emittable tags. -/
theorem c8_priority_counterexample :
    "youtube" ∈ emittableSourceTags ∧
    lookupPriority SOURCE_PRIORITY "youtube" = none := by
  exact ⟨by decide, by decide⟩

/-- C8 amended: `youtube` is the only emittable source tag missing from the
priority table (it defaults to priority 0 in merges and gets no scoring
bonus; YouTube URLs are accepted by direct URL match instead), and every
priority in the table is nonnegative. -/
theorem c8_priority_amended :
    emittableSourceTags.filter (fun tag => (lookupPriority SOURCE_PRIORITY tag).isNone) =
      ["youtube"]
  ∧ SOURCE_PRIORITY.all (fun kv => decide (0 ≤ kv.2)) = true := by
  exact ⟨by decide, by decide⟩

/-- C9: for a candidate actually dispatched from the page context (nonempty
URL not previously seen, incoming proxied flag unset): a relay-allow-list
match is flagged already-proxied and its URL is not rewrapped; a URL already
carrying `headers=` is never double-embedded; a URL the platform URL parser
rejects is left unchanged; and a valid absolute URL without `headers=` and
not relay-matched gets the page referer and origin stamped as the single
serialized `headers` query parameter, with every other parameter and the
rest of the URL structure preserved. -/
theorem c9_header_embedding (found : List String) (pr po : String)
    (v : PageVideo) (hurl : v.url ≠ "") (hmem : found.contains v.url = false)
    (hflag : v.alreadyProxied = false) :
    (isAlreadyProxied v.url = true →
       dispatchVideo found pr po v =
         (some { v with alreadyProxied := true }, v.url :: found))
  ∧ (isAlreadyProxied v.url = false → containsL (lc "headers=") v.url.data = true →
       dispatchVideo found pr po v = (some v, v.url :: found))
  ∧ (isAlreadyProxied v.url = false → containsL (lc "headers=") v.url.data = false →
       parseURL v.url = none →
       dispatchVideo found pr po v = (some v, v.url :: found))
  ∧ (∀ u : UrlParts, isAlreadyProxied v.url = false →
       containsL (lc "headers=") v.url.data = false →
       parseURL v.url = some u →
       isValidUrl pr = true → isValidUrl po = true →
       dispatchVideo found pr po v =
         (some { v with url := embeddedUrl u pr po }, embeddedUrl u pr po :: found)
     ∧ countKey (embeddedParams u pr po) "headers" = 1
     ∧ lookupParam (embeddedParams u pr po) "headers" =
         some (headersJson [("referer", pr), ("origin", po)])
     ∧ ∀ k, k ≠ "headers" →
         lookupParam (embeddedParams u pr po) k = lookupParam u.params k) := by
  obtain ⟨vu, vq, vs, vt, vp, vf⟩ := v
  simp only at hurl hmem hflag
  subst hflag
  have hmem' : vu ∉ found := by simpa using hmem
  refine ⟨?_, ?_, ?_, ?_⟩
  · intro hprox
    simp only at hprox
    simp [dispatchVideo, hurl, hmem', hprox]
  · intro hprox hcont
    simp only at hprox hcont
    simp [dispatchVideo, hurl, hmem', hprox, hcont]
  · intro hprox hcont hparse
    simp only at hprox hcont hparse
    have hemb : embedHeaders vu pr po = vu := embedHeaders_invalid _ _ _ hparse
    simp [dispatchVideo, hurl, hmem', hprox, hcont, hemb]
  · intro u hprox hcont hparse hvr hvo
    simp only at hprox hcont hparse
    have hpr : pr ≠ "" := isValidUrl_ne_empty hvr
    have hpo : po ≠ "" := isValidUrl_ne_empty hvo
    have hemb : embedHeaders vu pr po = embeddedUrl u pr po := by
      simp [embedHeaders, embeddedUrl, embeddedParams, hpr, hpo, hvr, hvo, hcont, hparse]
    refine ⟨?_, countKey_setParam _ _ _, lookupParam_setParam_self _ _ _,
      fun k hk => lookupParam_setParam_other _ _ _ hk _⟩
    simp [dispatchVideo, hurl, hmem', hprox, hcont, hemb]

/-- C9 witness: a concrete candidate gets the headers parameter embedded. -/
theorem c9_header_embedding_witness :
    dispatchVideo [] "https://page.x/a" "https://page.x"
      ({ url := "https://cdn.x/v.mp4?q=1" } : PageVideo) =
      (some ({ url :=
          "https://cdn.x/v.mp4?q=1&headers=\x7b\"referer\":\"https://page.x/a\",\"origin\":\"https://page.x\"\x7d" } : PageVideo),
       ["https://cdn.x/v.mp4?q=1&headers=\x7b\"referer\":\"https://page.x/a\",\"origin\":\"https://page.x\"\x7d"]) := by
  have h := (c9_header_embedding [] "https://page.x/a" "https://page.x"
      ({ url := "https://cdn.x/v.mp4?q=1" } : PageVideo)
      (by decide) (by decide) (by decide)).2.2.2
    ({ scheme := "https", hostPath := "cdn.x/v.mp4", params := [("q", "1")],
       fragment := none } : UrlParts)
    (by decide) (by decide) (by decide) (by decide) (by decide)
  exact h.1.trans (by decide)

/-- C10: merging onto an already-stored entry leaves size, contentType,
timestamp and playlist unchanged; source changes only to a strictly
higher-priority incoming source; quality and title change only when the
stored value is falsy (empty), and then to the incoming value. -/
theorem c10_merge_frame (e : Info) (v : VideoMsg) :
    (mergeEntry e v).size = e.size
  ∧ (mergeEntry e v).contentType = e.contentType
  ∧ (mergeEntry e v).timestamp = e.timestamp
  ∧ (mergeEntry e v).playlist = e.playlist
  ∧ ((mergeEntry e v).source = e.source ∨
      (prioOf v.source > prioOf e.source ∧ (mergeEntry e v).source = v.source))
  ∧ ((mergeEntry e v).quality = e.quality ∨
      (strTruthy e.quality = false ∧ (mergeEntry e v).quality = v.quality))
  ∧ ((mergeEntry e v).title = e.title ∨
      (strTruthy e.title = false ∧ (mergeEntry e v).title = v.title)) := by
  refine ⟨rfl, rfl, rfl, rfl, ?_, ?_, ?_⟩
  · by_cases h : prioOf v.source > prioOf e.source
    · exact Or.inr ⟨h, by simp [mergeEntry, h]⟩
    · exact Or.inl (by simp [mergeEntry, h])
  · cases hc : (strTruthy v.quality && !strTruthy e.quality) with
    | true =>
      refine Or.inr ⟨?_, by simp [mergeEntry, hc]⟩
      have hc' := hc
      simp only [Bool.and_eq_true] at hc'
      cases he : strTruthy e.quality
      · rfl
      · rw [he] at hc'
        simp at hc'
    | false => exact Or.inl (by simp [mergeEntry, hc])
  · cases hc : (strTruthy v.title && !strTruthy e.title) with
    | true =>
      refine Or.inr ⟨?_, by simp [mergeEntry, hc]⟩
      have hc' := hc
      simp only [Bool.and_eq_true] at hc'
      cases he : strTruthy e.title
      · rfl
      · rw [he] at hc'
        simp at hc'
    | false => exact Or.inl (by simp [mergeEntry, hc])

end SidebyPass
